import Mathlib

/-!
Verification development for the dltui DLT log viewer core.

The definitions below are a shallow embedding of the file-access and query
engine: the wire codec (`DltMessage.parse` and the three header parsers), the
boundary-resynchronising index builder (`buildIndex`), the message accessor
(`getMessage`), the secondary indices (`IndexM`), the filter engine
(`FilterCriteria` / `FilterEngine`), the search engine (`SearchEngine`) and the
session state (`AppM`).  Bytes are modelled as `Nat` values, machine-integer
wraparound is made explicit where the source relies on it, fallible operations
return `Option`, and compiled regular expressions are modelled as opaque-free
boolean matchers of type `String → Bool` supplied by the caller.
-/

namespace Dltui

/-- A file byte; values read from a DLT file lie in 0..255. -/
abbrev Byte := Nat

/-- Byte at an index; 0 when out of range.  Every use is guarded by an explicit
bounds check, mirroring the in-bounds slice indexing of the source. -/
def byteAt (data : List Byte) (i : Nat) : Byte := data.getD i 0

/-- Big-endian 32-bit read (source: byteorder `read_u32::<BigEndian>`). -/
def u32be (a b c d : Byte) : Nat := ((a * 256 + b) * 256 + c) * 256 + d

/-- Little-endian 16-bit read (source: `u16::from_le_bytes`). -/
def u16le (a b : Byte) : Nat := b * 256 + a

/-- DLT message log levels (source: `LogLevel`). -/
inductive LogLevel where
  | fatal
  | error
  | warning
  | info
  | debug
  | verbose
  | unknown (v : Nat)
deriving DecidableEq

/-- Source: `impl From<u8> for LogLevel`. -/
def LogLevel.ofNat (value : Nat) : LogLevel :=
  match value with
  | 1 => .fatal
  | 2 => .error
  | 3 => .warning
  | 4 => .info
  | 5 => .debug
  | 6 => .verbose
  | v => .unknown v

/-- DLT message types (source: `MessageType`). -/
inductive MessageType where
  | log
  | traceVariable
  | networkTrace
  | control
  | unknown (v : Nat)
deriving DecidableEq

/-- Source: `impl From<u8> for MessageType`. -/
def MessageType.ofNat (value : Nat) : MessageType :=
  match value with
  | 0 => .log
  | 1 => .traceVariable
  | 2 => .networkTrace
  | 3 => .control
  | v => .unknown v

/-- Model of chrono `DateTime<Utc>`: seconds since the Unix epoch paired with
the nanosecond-of-second (chrono admits values up to 2·10⁹, the range above
10⁹ encoding leap seconds).  Ordering is lexicographic, as in chrono. -/
structure Instant where
  secs : Nat
  nanos : Nat
deriving DecidableEq

/-- Boolean strict order on instants (chrono `DateTime` comparison). -/
def Instant.ltb (a b : Instant) : Bool :=
  decide (a.secs < b.secs) || (a.secs == b.secs && decide (a.nanos < b.nanos))

/-- Per-byte model of `String::from_utf8_lossy`: exact on ASCII bytes, a
replacement character for bytes ≥ 0x80.  The DLT id fields are NUL-padded
ASCII, on which this model is exact. -/
def lossyByteChar (b : Byte) : Char :=
  if b < 128 then Char.ofNat b else Char.ofNat 65533

/-- Decode an id field: lossy-decode and strip trailing NULs
(source: `from_utf8_lossy(..).trim_end_matches(0 as char)` shape). -/
def idStr (bs : List Byte) : String :=
  String.mk (((bs.reverse.dropWhile (fun b => b == 0)).reverse).map lossyByteChar)

/-- DLT Storage Header, 16 bytes (source: `DltStorageHeader`). -/
structure DltStorageHeader where
  pattern : List Byte
  timestamp_seconds : Nat
  timestamp_microseconds : Nat
  ecu_id : List Byte
deriving DecidableEq

/-- Source: `DltStorageHeader::parse`; succeeds exactly when 16 bytes are
available from the cursor start. -/
def DltStorageHeader.parse (data : List Byte) : Option DltStorageHeader :=
  if 16 ≤ data.length then
    some { pattern := data.take 4
         , timestamp_seconds :=
             u32be (byteAt data 4) (byteAt data 5) (byteAt data 6) (byteAt data 7)
         , timestamp_microseconds :=
             u32be (byteAt data 8) (byteAt data 9) (byteAt data 10) (byteAt data 11)
         , ecu_id := (data.drop 12).take 4 }
  else none

/-- Source: `DltStorageHeader::timestamp`.  The source multiplies the
microsecond field (a `u32`) by 1000 in `u32` arithmetic, which wraps modulo
2³², and hands the product to chrono `timestamp_opt`; chrono accepts any
nanosecond value below 2·10⁹ (seconds from a `u32` are always in range) and
the fallback is the Unix epoch. -/
def DltStorageHeader.timestamp (h : DltStorageHeader) : Instant :=
  let nsecs := (h.timestamp_microseconds * 1000) % 4294967296
  if nsecs < 2000000000 then ⟨h.timestamp_seconds, nsecs⟩ else ⟨0, 0⟩

/-- Source: `DltStorageHeader::ecu_id_str`. -/
def DltStorageHeader.ecu_id_str (h : DltStorageHeader) : String := idStr h.ecu_id

/-- DLT Standard Header, 4 bytes (source: `DltStandardHeader`). -/
structure DltStandardHeader where
  use_extended_header : Bool
  message_counter : Nat
  length : Nat
  message_type : MessageType
  version : Nat
deriving DecidableEq

/-- Source: `DltStandardHeader::parse`, reading 4 bytes at cursor offset
`off`; bitfields as in the source (`& 0x01`, `>> 1 & 0x07`, `>> 5 & 0x07`). -/
def DltStandardHeader.parse (data : List Byte) (off : Nat) : Option DltStandardHeader :=
  if off + 4 ≤ data.length then
    let ht := byteAt data off
    some { use_extended_header := ht % 2 == 1
         , message_counter := byteAt data (off + 1)
         , length := u16le (byteAt data (off + 2)) (byteAt data (off + 3))
         , message_type := MessageType.ofNat ((ht / 2) % 8)
         , version := (ht / 32) % 8 }
  else none

/-- DLT Extended Header, 10 bytes (source: `DltExtendedHeader`). -/
structure DltExtendedHeader where
  message_info : Nat
  argument_count : Nat
  app_id : List Byte
  context_id : List Byte
  log_level : LogLevel
deriving DecidableEq

/-- Source: `DltExtendedHeader::parse`, reading 10 bytes at cursor offset
`off`; the log level is bits 4..6 of `message_info`. -/
def DltExtendedHeader.parse (data : List Byte) (off : Nat) : Option DltExtendedHeader :=
  if off + 10 ≤ data.length then
    let mi := byteAt data off
    some { message_info := mi
         , argument_count := byteAt data (off + 1)
         , app_id := (data.drop (off + 2)).take 4
         , context_id := (data.drop (off + 6)).take 4
         , log_level := LogLevel.ofNat ((mi / 16) % 8) }
  else none

/-- Source: `DltExtendedHeader::app_id_str`. -/
def DltExtendedHeader.app_id_str (h : DltExtendedHeader) : String := idStr h.app_id

/-- Source: `DltExtendedHeader::context_id_str`. -/
def DltExtendedHeader.context_id_str (h : DltExtendedHeader) : String := idStr h.context_id

/-- Source: the byte class accepted by `DltMessage::parse_payload_text`:
printable ASCII or tab, line feed, carriage return. -/
def isTextByte (b : Byte) : Bool :=
  (decide (32 ≤ b) && decide (b < 127)) || b == 10 || b == 13 || b == 9

/-- Source: `DltMessage::parse_payload_text`.  When every byte is in the text
class the bytes are pure ASCII, so the source `String::from_utf8(..).ok()`
always succeeds and is modelled by direct decoding. -/
def parsePayloadText (payload : List Byte) : Option String :=
  if payload.all isTextByte then
    some (String.mk (payload.map (fun b => Char.ofNat b)))
  else none

/-- Complete DLT message (source: `DltMessage`). -/
structure DltMessage where
  storage_header : DltStorageHeader
  standard_header : DltStandardHeader
  extended_header : Option DltExtendedHeader
  payload : List Byte
  payload_text : Option String
deriving DecidableEq

/-- Source: `DltMessage::parse`.  The source computes
`payload_size = length - headers_size` in `usize` arithmetic; when
`length < headers_size` the release-mode wraparound makes the following
`read_exact` fail, so both that case and an out-of-range `length` are parse
failures. -/
def DltMessage.parse (data : List Byte) : Option DltMessage :=
  match DltStorageHeader.parse data with
  | none => none
  | some storage =>
    match DltStandardHeader.parse data 16 with
    | none => none
    | some std =>
      let extParsed : Option (Option DltExtendedHeader) :=
        if std.use_extended_header then
          match DltExtendedHeader.parse data 20 with
          | none => none
          | some e => some (some e)
        else some none
      match extParsed with
      | none => none
      | some ext =>
        let headers_size := if std.use_extended_header then 30 else 20
        if headers_size ≤ std.length ∧ std.length ≤ data.length then
          let payload := (data.drop headers_size).take (std.length - headers_size)
          some { storage_header := storage
               , standard_header := std
               , extended_header := ext
               , payload := payload
               , payload_text := parsePayloadText payload }
        else none

/-- Source: `DltMessage::timestamp`. -/
def DltMessage.timestamp (m : DltMessage) : Instant := m.storage_header.timestamp

/-- Source: `DltMessage::ecu_id`. -/
def DltMessage.ecu_id (m : DltMessage) : String := m.storage_header.ecu_id_str

/-- Source: `DltMessage::app_id`. -/
def DltMessage.app_id (m : DltMessage) : Option String :=
  m.extended_header.map (fun h => h.app_id_str)

/-- Source: `DltMessage::context_id`. -/
def DltMessage.context_id (m : DltMessage) : Option String :=
  m.extended_header.map (fun h => h.context_id_str)

/-- Source: `DltMessage::log_level`. -/
def DltMessage.log_level (m : DltMessage) : Option LogLevel :=
  m.extended_header.map (fun h => h.log_level)

/-- Source: `DltMessage::message_type`. -/
def DltMessage.message_type (m : DltMessage) : MessageType :=
  m.standard_header.message_type

/-- The storage magic check of the index builder (source: the four byte
comparisons `mmap[pos] == b'D' && .. && mmap[pos+3] == 0x01`). -/
def hasMagic (data : List Byte) (pos : Nat) : Bool :=
  byteAt data pos == 68 && byteAt data (pos + 1) == 76
    && byteAt data (pos + 2) == 84 && byteAt data (pos + 3) == 1

/-- The standard-header length field read by the index builder at a magic
position: u16 LE at bytes +18..+20 from the storage-header start. -/
def lengthFieldAt (data : List Byte) (pos : Nat) : Nat :=
  u16le (byteAt data (pos + 18)) (byteAt data (pos + 19))

/-- The scan loop of `DltFile::build_index`, with the loop turned into fuel
recursion; each iteration advances the position by at least one byte, so any
fuel exceeding `data.length - pos` reproduces the loop exactly (see
`buildIndexAux_fuel_irrelevant`).  The source loop exits when fewer than 16
bytes remain; on a magic match it records the position unconditionally, then
advances by the standard-header length field when the field is readable
(20 bytes available), non-zero and in range — the source's two nested
conditions, folded into one conjunction here, with the same one-byte advance
in all other cases. -/
def buildIndexAux (data : List Byte) : Nat → Nat → List Nat
  | 0, _ => []
  | fuel + 1, pos =>
    if data.length < pos + 16 then []
    else if hasMagic data pos then
      pos ::
        (if pos + 20 ≤ data.length ∧ 0 < lengthFieldAt data pos
            ∧ pos + lengthFieldAt data pos ≤ data.length then
          buildIndexAux data fuel (pos + lengthFieldAt data pos)
        else buildIndexAux data fuel (pos + 1))
    else buildIndexAux data fuel (pos + 1)

/-- Source: `DltFile::build_index`, scanning from position 0. -/
def buildIndex (data : List Byte) : List Nat :=
  buildIndexAux data (data.length + 1) 0

/-- Source: `DltFile::message_count` (the length of the built index). -/
def messageCount (data : List Byte) : Nat := (buildIndex data).length

/-- Source: `DltFile::get_message`: bounds check, slice from `offset[i]` to
`offset[i+1]` (end of file for the last message), then parse. -/
def getMessage (data : List Byte) (idx : Nat) : Option DltMessage :=
  let index := buildIndex data
  if idx < index.length then
    let pos := index.getD idx 0
    let next := if idx + 1 < index.length then index.getD (idx + 1) 0 else data.length
    DltMessage.parse ((data.drop pos).take (next - pos))
  else none

/-- Filter criteria (source: `FilterCriteria`); the compiled payload regex is
modelled as a boolean matcher. -/
structure FilterCriteria where
  app_id : Option String
  context_id : Option String
  log_level : Option LogLevel
  time_range : Option (Instant × Instant)
  message_type : Option MessageType
  text_pattern : Option (String → Bool)

/-- Source: `FilterCriteria::default` (all constraints absent). -/
def FilterCriteria.default : FilterCriteria :=
  ⟨none, none, none, none, none, none⟩

/-- Source: `FilterCriteria::is_empty`. -/
def FilterCriteria.isEmpty (c : FilterCriteria) : Bool :=
  c.app_id.isNone && c.context_id.isNone && c.log_level.isNone
    && c.time_range.isNone && c.message_type.isNone && c.text_pattern.isNone

/-- Source: `FilterCriteria::matches`: each constraint rejects in turn; a
message lacking a field required by a set constraint is rejected; the time
range is a closed interval; a set text pattern rejects messages without
`payload_text`. -/
def FilterCriteria.matches (c : FilterCriteria) (m : DltMessage) : Bool :=
  (match c.app_id with
   | none => true
   | some a => match m.app_id with
     | none => false
     | some x => x == a) &&
  (match c.context_id with
   | none => true
   | some cid => match m.context_id with
     | none => false
     | some x => x == cid) &&
  (match c.log_level with
   | none => true
   | some lv => match m.log_level with
     | none => false
     | some l => l == lv) &&
  (match c.time_range with
   | none => true
   | some r => !(Instant.ltb m.timestamp r.1) && !(Instant.ltb r.2 m.timestamp)) &&
  (match c.message_type with
   | none => true
   | some mt => m.message_type == mt) &&
  (match c.text_pattern with
   | none => true
   | some p => match m.payload_text with
     | none => false
     | some t => p t)

/-- Filter engine (source: `FilterEngine`). -/
structure FilterEngine where
  criteria : FilterCriteria

/-- Source: `FilterEngine::apply`: fast path returning `0..message_count` for
empty criteria, otherwise keep the positions whose message parses and
matches.  The rayon parallel collect preserves position order, so the
sequential filter is the faithful model. -/
def FilterEngine.apply (e : FilterEngine) (data : List Byte) : List Nat :=
  if e.criteria.isEmpty then List.range (messageCount data)
  else
    (List.range (messageCount data)).filter fun idx =>
      match getMessage data idx with
      | some msg => e.criteria.matches msg
      | none => false

/-- Search engine (source: `SearchEngine`): a compiled pattern, modelled as a
boolean matcher, and the case-sensitivity flag. -/
structure SearchEngine where
  pattern : String → Bool
  case_sensitive : Bool

/-- Source: `SearchEngine::matches`.  When `payload_text` is present the
method returns the payload match result directly; only messages without
payload text fall through to the app-id, context-id and ecu-id checks. -/
def SearchEngine.matches (e : SearchEngine) (m : DltMessage) : Bool :=
  match m.payload_text with
  | some text => e.pattern text
  | none =>
    (match m.app_id with
     | some a => e.pattern a
     | none => false) ||
    (match m.context_id with
     | some c => e.pattern c
     | none => false) ||
    e.pattern m.ecu_id

/-- Source: `SearchEngine::search`: positions whose message parses and
matches, in ascending order (rayon collect preserves order). -/
def SearchEngine.search (e : SearchEngine) (data : List Byte) : List Nat :=
  (List.range (messageCount data)).filter fun idx =>
    match getMessage data idx with
    | some msg => e.matches msg
    | none => false

/-- Secondary indices (source: `Index`): maps from field values to position
lists, modelled as functions returning the (possibly empty) list for a key,
exactly the observable behaviour of the source `HashMap` lookups with
`unwrap_or_default`. -/
structure IndexM where
  app_id_index : String → List Nat
  context_id_index : String → List Nat
  log_level_index : LogLevel → List Nat
  ecu_id_index : String → List Nat

/-- The empty secondary index (all lookups empty). -/
def IndexM.empty : IndexM :=
  ⟨fun _ => [], fun _ => [], fun _ => [], fun _ => []⟩

/-- Source: `entry(key).or_default().push(idx)` — append `i` to the list at
key `k`, leaving other keys unchanged. -/
def updIndex {α : Type} [DecidableEq α] (f : α → List Nat) (k : α) (i : Nat) :
    α → List Nat :=
  fun x => if x = k then f x ++ [i] else f x

/-- Source: the `if let Some(key) = ..` shape around the push. -/
def updOpt {α : Type} [DecidableEq α] (f : α → List Nat) (o : Option α) (i : Nat) :
    α → List Nat :=
  match o with
  | some k => updIndex f k i
  | none => f

/-- Source: `Index::build`: one pass over `0..message_count`, propagating the
first `get_message` failure with `?`, appending each position to the ecu list
unconditionally and to the app / context / log-level lists when the field is
present.  `buildAux get n` processes positions `0..n`. -/
def IndexM.buildAux (get : Nat → Option DltMessage) : Nat → Option IndexM
  | 0 => some IndexM.empty
  | n + 1 =>
    match IndexM.buildAux get n with
    | none => none
    | some ix =>
      match get n with
      | none => none
      | some message =>
        some { ecu_id_index := updIndex ix.ecu_id_index message.ecu_id n
             , app_id_index := updOpt ix.app_id_index message.app_id n
             , context_id_index := updOpt ix.context_id_index message.context_id n
             , log_level_index := updOpt ix.log_level_index message.log_level n }

/-- Source: `Index::new` / `Index::build` over an opened file. -/
def IndexM.build (data : List Byte) : Option IndexM :=
  IndexM.buildAux (getMessage data) (messageCount data)

/-- Session state (source: `App`), restricted to the core fields: UI-only
fields (view mode, input mode, command buffer, exit flag) are external
collaborators and carry no core behaviour. -/
structure AppM where
  files : List (List Byte)
  indices : List IndexM
  current_file_idx : Nat
  filter : FilterCriteria
  filter_engine : Option FilterEngine
  filtered_messages : List Nat
  selected_message_idx : Nat
  search_engine : Option SearchEngine
  search_pattern : Option (String → Bool)
  search_results : List Nat
  current_search_idx : Nat
  case_sensitive_search : Bool
  status_message : String

/-- Source: `App::new`. -/
def AppM.new : AppM :=
  { files := []
  , indices := []
  , current_file_idx := 0
  , filter := FilterCriteria.default
  , filter_engine := some ⟨FilterCriteria.default⟩
  , filtered_messages := []
  , selected_message_idx := 0
  , search_engine := none
  , search_pattern := none
  , search_results := []
  , current_search_idx := 0
  , case_sensitive_search := true
  , status_message := "" }

/-- Source: `App::apply_filter`: with no files only the filter result is
cleared; otherwise the engine result (or the full range without an engine) is
installed and selection and search state are reset. -/
def AppM.apply_filter (a : AppM) : AppM :=
  if a.files.isEmpty then { a with filtered_messages := [] }
  else
    let file := a.files.getD a.current_file_idx []
    let fm := match a.filter_engine with
      | some engine => engine.apply file
      | none => List.range (messageCount file)
    { a with filtered_messages := fm
           , selected_message_idx := 0
           , search_results := []
           , current_search_idx := 0 }

/-- Source: `App::load_file`: open (memory-mapping an empty file fails with an
IO error), build the secondary index propagating its failure, only then push
the file, and recompute the filter when it is the first file. -/
def AppM.load_file (a : AppM) (bytes : List Byte) : AppM × Bool :=
  if bytes.isEmpty then (a, false)
  else
    match IndexM.build bytes with
    | none => (a, false)
    | some ix =>
      let a1 := { a with files := a.files ++ [bytes], indices := a.indices ++ [ix] }
      if a1.files.length = 1 then
        (AppM.apply_filter { a1 with current_file_idx := 0 }, true)
      else (a1, true)

/-- An apostrophe, used when rebuilding the status strings of the source. -/
def sq : String := String.singleton (Char.ofNat 39)

/-- The pattern actually compiled: the source prefixes the inline
case-insensitive flag when case-insensitive mode is active. -/
def effectivePattern (case_sensitive : Bool) (pattern : String) : String :=
  if case_sensitive then pattern else "(?i)" ++ pattern

/-- Continuation of `App::search` after the engine update succeeded with the
compiled matcher `enginePat`: store the pattern (a second compilation of the
same string, which cannot fail once the first succeeded), clear the results,
early-return when no file or no filter result, otherwise collect the filter
result indices whose message matches, update the status line, reset the
cursor and select the first hit. -/
def AppM.searchCont (compileRegex : String → Option (String → Bool)) (a : AppM)
    (pattern eff : String) (enginePat : String → Bool) : AppM × Bool :=
  match compileRegex eff with
  | none => (a, false)
  | some p2 =>
    let a2 := { a with search_pattern := some p2, search_results := [] }
    if a2.files.isEmpty || a2.filtered_messages.isEmpty then (a2, true)
    else
      let file := a2.files.getD a2.current_file_idx []
      let results := (List.range a2.filtered_messages.length).filter fun i =>
        match getMessage file (a2.filtered_messages.getD i 0) with
        | some msg => SearchEngine.matches ⟨enginePat, a2.case_sensitive_search⟩ msg
        | none => false
      let status :=
        if results.isEmpty then
          "No matches found for " ++ sq ++ pattern ++ sq
        else
          "Found " ++ toString results.length ++ " matches for " ++ sq ++ pattern ++ sq
      let a3 := { a2 with search_results := results
                        , status_message := status
                        , current_search_idx := 0 }
      if results.isEmpty then (a3, true)
      else ({ a3 with selected_message_idx := results.getD 0 0 }, true)

/-- Source: `App::search`.  Regex compilation is modelled by the caller-supplied
`compileRegex`.  When an engine exists, `set_pattern_with_case_sensitivity`
stores the case flag before compiling, so a compile failure still updates the
engine flag; without an engine a failed construction leaves everything
unchanged.  Either failure returns the error immediately. -/
def AppM.search (compileRegex : String → Option (String → Bool)) (a : AppM)
    (pattern : String) : AppM × Bool :=
  let eff := effectivePattern a.case_sensitive_search pattern
  match a.search_engine with
  | some engine =>
    match compileRegex eff with
    | none =>
      ({ a with search_engine := some ⟨engine.pattern, a.case_sensitive_search⟩ }, false)
    | some p =>
      AppM.searchCont compileRegex
        { a with search_engine := some ⟨p, a.case_sensitive_search⟩ } pattern eff p
  | none =>
    match compileRegex eff with
    | none => (a, false)
    | some p =>
      AppM.searchCont compileRegex
        { a with search_engine := some ⟨p, a.case_sensitive_search⟩ } pattern eff p

/-- Source: `App::next_search_result`: wrap-around advance, then move the
selection to the hit. -/
def AppM.next_search_result (a : AppM) : AppM :=
  if a.search_results.isEmpty then a
  else
    let cur := (a.current_search_idx + 1) % a.search_results.length
    { a with current_search_idx := cur
           , selected_message_idx := a.search_results.getD cur 0 }

/-- Source: `App::prev_search_result`: wrap-around retreat, then move the
selection to the hit. -/
def AppM.prev_search_result (a : AppM) : AppM :=
  if a.search_results.isEmpty then a
  else
    let cur := if a.current_search_idx = 0 then a.search_results.length - 1
               else a.current_search_idx - 1
    { a with current_search_idx := cur
           , selected_message_idx := a.search_results.getD cur 0 }

/-! Concrete inputs used by witnesses and counterexamples. -/

/-- Substring test on char lists, used to model a literal regex such as
`"ECU1"`: the compiled pattern matches anywhere in the text. -/
def containsSub (pat : List Char) : List Char → Bool
  | [] => pat.isEmpty
  | c :: rest => pat.isPrefixOf (c :: rest) || containsSub pat rest

/-- A literal (non-meta) regex as a matcher: match anywhere in the subject. -/
def litMatch (pat s : String) : Bool := containsSub pat.data s.data

/-- The compiled pattern of a case-sensitive search for the literal `ECU1`. -/
def litECU1 : String → Bool := litMatch "ECU1"

/-- Scenario 1, first record: `M(100, 0, ECU1, APP1, CTX1, Info, hello world)`
— storage header, standard header (extended bit set, version 1, length 41),
extended header (Info), 11 payload bytes. -/
def m1Bytes : List Byte :=
  [68, 76, 84, 1, 0, 0, 0, 100, 0, 0, 0, 0, 69, 67, 85, 49,
   33, 0, 41, 0,
   64, 1, 65, 80, 80, 49, 67, 84, 88, 49,
   104, 101, 108, 108, 111, 32, 119, 111, 114, 108, 100]

/-- Scenario 1, second record: `M(101, 500, ECU1, APP2, CTX1, Error, boom)`. -/
def m2Bytes : List Byte :=
  [68, 76, 84, 1, 0, 0, 0, 101, 0, 0, 1, 244, 69, 67, 85, 49,
   33, 1, 34, 0,
   32, 1, 65, 80, 80, 50, 67, 84, 88, 49,
   98, 111, 111, 109]

/-- Scenario 1 file `F1`: the two records back to back. -/
def F1 : List Byte := m1Bytes ++ m2Bytes

/-- The parsed first message of `F1`. -/
def F1msg0 : DltMessage :=
  { storage_header :=
      { pattern := [68, 76, 84, 1]
      , timestamp_seconds := 100
      , timestamp_microseconds := 0
      , ecu_id := [69, 67, 85, 49] }
  , standard_header :=
      { use_extended_header := true
      , message_counter := 0
      , length := 41
      , message_type := MessageType.log
      , version := 1 }
  , extended_header := some
      { message_info := 64
      , argument_count := 1
      , app_id := [65, 80, 80, 49]
      , context_id := [67, 84, 88, 49]
      , log_level := LogLevel.info }
  , payload := [104, 101, 108, 108, 111, 32, 119, 111, 114, 108, 100]
  , payload_text := some "hello world" }

/-- A 20-byte file holding a single storage magic whose standard-header length
field (100) exceeds the 20 bytes available: a truncated final message. -/
def truncFile : List Byte :=
  [68, 76, 84, 1, 0, 0, 0, 0, 0, 0, 0, 0, 69, 67, 85, 49, 33, 0, 100, 0]

/-- `m1Bytes` followed by five garbage bytes and a bare 16-byte magic tail:
the gap makes `offset[1] - offset[0] = 46` exceed the first message's length
field 41, and the 16-byte tail is indexed but cannot be parsed. -/
def gapFile : List Byte :=
  m1Bytes ++ [255, 255, 255, 255, 255] ++
    [68, 76, 84, 1, 0, 0, 0, 0, 0, 0, 0, 0, 0, 0, 0, 0]

/-- A 16-byte file: just a storage header, no standard header after it.  The
index records position 0 but `get_message 0` cannot parse it. -/
def shortFile : List Byte :=
  [68, 76, 84, 1, 0, 0, 0, 0, 0, 0, 0, 0, 0, 0, 0, 0]

/-! General lemmas about the index builder. -/

lemma mem_buildIndexAux {data : List Byte} :
    ∀ {fuel pos p : Nat}, p ∈ buildIndexAux data fuel pos →
      pos ≤ p ∧ p + 16 ≤ data.length ∧ hasMagic data p = true := by
  intro fuel
  induction fuel with
  | zero => intro pos p hp; simp [buildIndexAux] at hp
  | succ n ih =>
    intro pos p hp
    rw [buildIndexAux] at hp
    by_cases h1 : data.length < pos + 16
    · rw [if_pos h1] at hp; simp at hp
    · rw [if_neg h1] at hp
      by_cases h2 : hasMagic data pos = true
      · rw [if_pos h2] at hp
        rcases List.mem_cons.mp hp with h | h
        · subst h; exact ⟨Nat.le_refl _, by omega, h2⟩
        · by_cases h3 : pos + 20 ≤ data.length ∧ 0 < lengthFieldAt data pos
              ∧ pos + lengthFieldAt data pos ≤ data.length
          · rw [if_pos h3] at h
            obtain ⟨hle, hrest⟩ := ih h
            exact ⟨by omega, hrest⟩
          · rw [if_neg h3] at h
            obtain ⟨hle, hrest⟩ := ih h
            exact ⟨by omega, hrest⟩
      · rw [if_neg h2] at hp
        obtain ⟨hle, hrest⟩ := ih hp
        exact ⟨by omega, hrest⟩

lemma pairwise_buildIndexAux {data : List Byte} :
    ∀ {fuel pos : Nat}, (buildIndexAux data fuel pos).Pairwise (· < ·) := by
  intro fuel
  induction fuel with
  | zero => intro pos; simp [buildIndexAux]
  | succ n ih =>
    intro pos
    rw [buildIndexAux]
    by_cases h1 : data.length < pos + 16
    · rw [if_pos h1]; exact List.Pairwise.nil
    · rw [if_neg h1]
      by_cases h2 : hasMagic data pos = true
      · rw [if_pos h2]
        refine List.pairwise_cons.mpr ⟨?_, ?_⟩
        · intro q hq
          by_cases h3 : pos + 20 ≤ data.length ∧ 0 < lengthFieldAt data pos
              ∧ pos + lengthFieldAt data pos ≤ data.length
          · rw [if_pos h3] at hq
            have := (mem_buildIndexAux hq).1
            omega
          · rw [if_neg h3] at hq
            have := (mem_buildIndexAux hq).1
            omega
        · split
          · exact ih
          · exact ih
      · rw [if_neg h2]
        exact ih

/-- Any fuel strictly exceeding the remaining bytes reproduces the scan loop:
the fuel chosen in `buildIndex` is an artifact of the embedding, not a
semantic bound. -/
lemma buildIndexAux_fuel_irrelevant {data : List Byte} :
    ∀ {f g pos : Nat}, data.length - pos < f → data.length - pos < g →
      buildIndexAux data f pos = buildIndexAux data g pos := by
  intro f
  induction f with
  | zero => intro g pos hf; omega
  | succ n ih =>
    intro g pos hf hg
    obtain ⟨g', rfl⟩ : ∃ g', g = g' + 1 := ⟨g - 1, by omega⟩
    rw [buildIndexAux, buildIndexAux]
    by_cases h1 : data.length < pos + 16
    · rw [if_pos h1, if_pos h1]
    · rw [if_neg h1, if_neg h1]
      by_cases h2 : hasMagic data pos = true
      · rw [if_pos h2, if_pos h2]
        congr 1
        by_cases h3 : pos + 20 ≤ data.length ∧ 0 < lengthFieldAt data pos
            ∧ pos + lengthFieldAt data pos ≤ data.length
        · rw [if_pos h3, if_pos h3]
          exact ih (by omega) (by omega)
        · rw [if_neg h3, if_neg h3]
          exact ih (by omega) (by omega)
      · rw [if_neg h2, if_neg h2]
        exact ih (by omega) (by omega)

/-- A true magic check pins the four bytes at the position. -/
lemma magic_take {data : List Byte} {p : Nat} (hlen : p + 4 ≤ data.length)
    (h : hasMagic data p = true) : (data.drop p).take 4 = [68, 76, 84, 1] := by
  simp only [hasMagic, Bool.and_eq_true, beq_iff_eq] at h
  obtain ⟨⟨⟨h0, h1⟩, h2⟩, h3⟩ := h
  have e0 : data.drop p = data.getD p 0 :: data.drop (p + 1) := by
    rw [List.getD_eq_getElem _ _ (by omega), List.drop_eq_getElem_cons (by omega)]
  have e1 : data.drop (p + 1) = data.getD (p + 1) 0 :: data.drop (p + 2) := by
    rw [List.getD_eq_getElem _ _ (by omega), List.drop_eq_getElem_cons (by omega)]
  have e2 : data.drop (p + 2) = data.getD (p + 2) 0 :: data.drop (p + 3) := by
    rw [List.getD_eq_getElem _ _ (by omega), List.drop_eq_getElem_cons (by omega)]
  have e3 : data.drop (p + 3) = data.getD (p + 3) 0 :: data.drop (p + 4) := by
    rw [List.getD_eq_getElem _ _ (by omega), List.drop_eq_getElem_cons (by omega)]
  rw [e0, e1, e2, e3]
  simp only [byteAt] at h0 h1 h2 h3
  simp only [List.take_succ_cons, List.take_zero]
  rw [h0, h1, h2, h3]

/-- C5 (confirmed): for every input byte sequence the offset list produced by
the index builder is strictly ascending, and every recorded offset points at
a position whose next four bytes are the storage magic `D L T 0x01` (with at
least 16 bytes remaining there). -/
theorem index_offsets_sorted_and_magic (data : List Byte) :
    (buildIndex data).Pairwise (· < ·) ∧
      ∀ p ∈ buildIndex data,
        (data.drop p).take 4 = [68, 76, 84, 1] ∧ p + 16 ≤ data.length := by
  refine ⟨pairwise_buildIndexAux, ?_⟩
  intro p hp
  obtain ⟨-, hlen, hmagic⟩ := mem_buildIndexAux hp
  exact ⟨magic_take (by omega) hmagic, hlen⟩

/-- Witness for C5 at file `F1` and its second offset 41. -/
theorem index_offsets_sorted_and_magic_witness :
    41 ∈ buildIndex F1 ∧
      ((F1.drop 41).take 4 = [68, 76, 84, 1] ∧ 41 + 16 ≤ F1.length) :=
  ⟨by decide, (index_offsets_sorted_and_magic F1).2 41 (by decide)⟩

/-- C2 (counterexample): `truncFile` is 20 bytes whose single magic at offset
0 declares a length of 100, exceeding the remaining bytes — a truncated final
message — yet the built index contains offset 0 rather than excluding it. -/
theorem truncated_final_message_indexed_cex :
    buildIndex truncFile = [0] ∧ truncFile.length = 20 ∧
      lengthFieldAt truncFile 0 = 100 := by decide

/-- C2 (amended): when the scan reaches a position whose four bytes are the
storage magic and at least 16 bytes remain, the position is recorded in the
index even when the standard-header length exceeds the remaining bytes: the
failed length check only downgrades the advance to one byte. -/
theorem truncated_final_message_recorded (data : List Byte) (pos fuel : Nat)
    (h16 : pos + 16 ≤ data.length) (hm : hasMagic data pos = true) :
    pos ∈ buildIndexAux data (fuel + 1) pos := by
  rw [buildIndexAux, if_neg (by omega), if_pos hm]
  exact List.mem_cons_self _ _

/-- Witness for the amended C2 at `truncFile`, where the scan starts on the
truncated magic itself. -/
theorem truncated_final_message_recorded_witness :
    (0 + 16 ≤ truncFile.length ∧ hasMagic truncFile 0 = true) ∧
      0 ∈ buildIndexAux truncFile 21 0 :=
  ⟨by decide, truncated_final_message_recorded truncFile 0 20 (by decide) (by decide)⟩

/-- A successful parse never declares a length beyond its input slice. -/
lemma parse_length_le {data : List Byte} {m : DltMessage}
    (h : DltMessage.parse data = some m) : m.standard_header.length ≤ data.length := by
  simp only [DltMessage.parse] at h
  repeat' split at h
  all_goals
    first
      | (rename_i hle
         obtain rfl : _ = m := Option.some.inj h
         exact hle.2)
      | exact absurd h (by simp)

/-- C3 (counterexample): in `gapFile`, the first message parses with length
field 41 while `offset[1] - offset[0] = 46` (garbage separates the records),
and the second indexed offset fails to parse altogether (only 16 bytes
follow it). -/
theorem accessor_parse_and_length_cex :
    buildIndex gapFile = [0, 46] ∧
      (getMessage gapFile 0).map (fun m => m.standard_header.length) = some 41 ∧
      getMessage gapFile 1 = none := by decide

/-- C3 (amended): `get_message(i)` can fail to parse (an indexed offset may
be followed by fewer bytes than a full header needs); whenever it succeeds
the parsed standard-header length is at most the slice length
`offset[i+1] - offset[i]` (end-of-file for the last message, which thereby
tolerates trailing slack); equality is not guaranteed. -/
theorem parsed_length_within_slice (data : List Byte) (i : Nat) (m : DltMessage)
    (h : getMessage data i = some m) :
    m.standard_header.length ≤
      (if i + 1 < (buildIndex data).length then (buildIndex data).getD (i + 1) 0
       else data.length) - (buildIndex data).getD i 0 := by
  unfold getMessage at h
  by_cases hidx : i < (buildIndex data).length
  · rw [if_pos hidx] at h
    have hle := parse_length_le h
    have : ((data.drop ((buildIndex data).getD i 0)).take
        ((if i + 1 < (buildIndex data).length then (buildIndex data).getD (i + 1) 0
          else data.length) - (buildIndex data).getD i 0)).length ≤
        (if i + 1 < (buildIndex data).length then (buildIndex data).getD (i + 1) 0
         else data.length) - (buildIndex data).getD i 0 := by
      simp [List.length_take]
    omega
  · rw [if_neg hidx] at h
    exact absurd h (by simp)

/-- Witness for the amended C3 at `gapFile`, message 0: length 41 within the
46-byte slice. -/
theorem parsed_length_within_slice_witness :
    getMessage gapFile 0 = some F1msg0 ∧
      F1msg0.standard_header.length ≤
        (if 0 + 1 < (buildIndex gapFile).length then (buildIndex gapFile).getD (0 + 1) 0
         else gapFile.length) - (buildIndex gapFile).getD 0 0 :=
  ⟨by decide, parsed_length_within_slice gapFile 0 F1msg0 (by decide)⟩

/-- The UTC instant corresponding to a seconds/microseconds pair at
microsecond resolution, following the spec wording: combine seconds and
microseconds into a single instant. -/
def specInstant (secs micros : Nat) : Instant :=
  ⟨secs + micros / 1000000, (micros % 1000000) * 1000⟩

/-- C9 (counterexample): for the pair seconds = 100, microseconds = 1500000
(not representable as a sub-second offset), the code returns the chrono
leap-second instant ⟨100, 1.5·10⁹ ns⟩, which is neither the corresponding
UTC instant ⟨101, 5·10⁸ ns⟩ nor the Unix epoch. -/
theorem timestamp_leap_not_epoch_cex :
    DltStorageHeader.timestamp ⟨[68, 76, 84, 1], 100, 1500000, [69, 67, 85, 49]⟩
        = Instant.mk 100 1500000000 ∧
      specInstant 100 1500000 = Instant.mk 101 500000000 ∧
      Instant.mk 100 1500000000 ≠ Instant.mk 101 500000000 ∧
      Instant.mk 100 1500000000 ≠ Instant.mk 0 0 := by decide

/-- C9 (amended): timestamp construction is total and never fails the parse;
for every pair whose microsecond field is in the documented range 0..999999
it returns the corresponding UTC instant with microsecond resolution.  For
out-of-range microseconds the source multiplies in wrapping u32 arithmetic
and chrono accepts nanosecond values below 2·10⁹, so the result can be a
leap-second or wrapped instant rather than the Unix epoch; the epoch is
substituted exactly when the wrapped nanosecond value is ≥ 2·10⁹. -/
theorem timestamp_exact_in_documented_range (h : DltStorageHeader)
    (hmic : h.timestamp_microseconds ≤ 999999) :
    h.timestamp = specInstant h.timestamp_seconds h.timestamp_microseconds := by
  have h1 : h.timestamp_microseconds * 1000 % 4294967296
      = h.timestamp_microseconds * 1000 := Nat.mod_eq_of_lt (by omega)
  simp only [DltStorageHeader.timestamp, specInstant, h1]
  rw [if_pos (by omega)]
  have e1 : h.timestamp_microseconds / 1000000 = 0 := Nat.div_eq_of_lt (by omega)
  have e2 : h.timestamp_microseconds % 1000000 = h.timestamp_microseconds :=
    Nat.mod_eq_of_lt (by omega)
  rw [e1, e2, Nat.add_zero]

/-- Witness for the amended C9 at the top of the documented range. -/
theorem timestamp_exact_in_documented_range_witness :
    (DltStorageHeader.timestamp_microseconds ⟨[68, 76, 84, 1], 100, 999999, [69, 67, 85, 49]⟩
        ≤ 999999) ∧
      DltStorageHeader.timestamp ⟨[68, 76, 84, 1], 100, 999999, [69, 67, 85, 49]⟩
        = specInstant 100 999999 :=
  ⟨by decide, timestamp_exact_in_documented_range _ (by decide)⟩

/-- The match predicate asserted by claim C1: the pattern matches at least
one of payload text (when present), app id, context id or ecu id. -/
def specAnyProjectionMatches (pat : String → Bool) (m : DltMessage) : Bool :=
  (match m.payload_text with
   | some t => pat t
   | none => false) ||
  (match m.app_id with
   | some a => pat a
   | none => false) ||
  (match m.context_id with
   | some c => pat c
   | none => false) ||
  pat m.ecu_id

/-- C1 (counterexample): for the first message of `F1` (payload text
`hello world`, ecu id `ECU1`) and the literal pattern `ECU1`, the claim's
any-projection disjunction is true but the engine's match test is false — the
payload-text branch returns early without consulting the id fields — and
consequently searching `F1` for `ECU1` returns `[]`, not `[0, 1]`. -/
theorem search_matches_any_projection_cex :
    (getMessage F1 0).map (fun m => SearchEngine.matches ⟨litECU1, true⟩ m) = some false ∧
      (getMessage F1 0).map (fun m => specAnyProjectionMatches litECU1 m) = some true ∧
      SearchEngine.search ⟨litECU1, true⟩ F1 = [] := by decide

/-- The match predicate as amended: payload text, when present, decides the
match alone; only messages without payload text fall back to the app-id,
context-id and ecu-id strings. -/
def specPayloadPriorityMatches (pat : String → Bool) (m : DltMessage) : Bool :=
  match m.payload_text with
  | some t => pat t
  | none =>
    (match m.app_id with
     | some a => pat a
     | none => false) ||
    (match m.context_id with
     | some c => pat c
     | none => false) ||
    pat m.ecu_id

/-- C1 (amended): the engine's match test returns true iff — when the message
has payload text — the pattern matches that text, and otherwise the pattern
matches at least one of the app-id, context-id or ecu-id strings;
consequently searching `F1` for `ECU1` returns `[]`. -/
theorem search_matches_payload_priority :
    (∀ (e : SearchEngine) (m : DltMessage),
        e.matches m = specPayloadPriorityMatches e.pattern m) ∧
      SearchEngine.search ⟨litECU1, true⟩ F1 = [] := by
  constructor
  · intro e m
    cases hm : m.payload_text <;>
      simp [SearchEngine.matches, specPayloadPriorityMatches, hm]
  · decide

/-- Criteria with no constraints accept every message. -/
lemma matches_of_isEmpty {c : FilterCriteria} (h : c.isEmpty = true)
    (m : DltMessage) : c.matches m = true := by
  simp only [FilterCriteria.isEmpty, Bool.and_eq_true, Option.isNone_iff_eq_none] at h
  obtain ⟨⟨⟨⟨⟨h1, h2⟩, h3⟩, h4⟩, h5⟩, h6⟩ := h
  simp [FilterCriteria.matches, h1, h2, h3, h4, h5, h6]

/-- C4 (confirmed): on a file whose indexed messages all parse, the filter
engine's result is exactly the ascending duplicate-free enumeration of
`{ i < message_count | c.matches (msg i) }`, and with no constraints it is
exactly `0..message_count`. -/
theorem filter_result_is_sorted_subset (data : List Byte) (c : FilterCriteria)
    (hp : ∀ i, i < messageCount data → (getMessage data i).isSome = true) :
    FilterEngine.apply ⟨c⟩ data
        = (List.range (messageCount data)).filter
            (fun i => ((getMessage data i).map c.matches).getD false)
      ∧ (FilterEngine.apply ⟨c⟩ data).Pairwise (· < ·)
      ∧ (c.isEmpty = true →
          FilterEngine.apply ⟨c⟩ data = List.range (messageCount data)) := by
  have hfun : ∀ i ∈ List.range (messageCount data),
      (match getMessage data i with
       | some msg => c.matches msg
       | none => false) = ((getMessage data i).map c.matches).getD false := by
    intro i _
    cases getMessage data i <;> rfl
  have happ : FilterEngine.apply ⟨c⟩ data
      = if c.isEmpty = true then List.range (messageCount data)
        else (List.range (messageCount data)).filter fun idx =>
          match getMessage data idx with
          | some msg => c.matches msg
          | none => false := rfl
  refine ⟨?_, ?_, ?_⟩
  · rw [happ]
    by_cases he : c.isEmpty = true
    · rw [if_pos he]
      symm
      rw [List.filter_eq_self]
      intro i hi
      obtain ⟨m, hm⟩ := Option.isSome_iff_exists.mp (hp i (List.mem_range.mp hi))
      simp [hm, matches_of_isEmpty he m]
    · rw [if_neg he]
      exact List.filter_congr hfun
  · rw [happ]
    by_cases he : c.isEmpty = true
    · rw [if_pos he]; exact List.pairwise_lt_range _
    · rw [if_neg he]; exact (List.pairwise_lt_range _).filter _
  · intro he
    rw [happ, if_pos he]

/-- Witness for C4 on `F1` with the single constraint `app_id = APP2`:
the result is `[1]`, matching the filtered enumeration (scenario 1). -/
theorem filter_result_is_sorted_subset_witness :
    (∀ i, i < messageCount F1 → (getMessage F1 i).isSome = true) ∧
      (FilterEngine.apply ⟨⟨some "APP2", none, none, none, none, none⟩⟩ F1
          = (List.range (messageCount F1)).filter
              (fun i => ((getMessage F1 i).map
                (FilterCriteria.matches ⟨some "APP2", none, none, none, none, none⟩)).getD false)
        ∧ (FilterEngine.apply ⟨⟨some "APP2", none, none, none, none, none⟩⟩ F1).Pairwise (· < ·)
        ∧ (FilterCriteria.isEmpty ⟨some "APP2", none, none, none, none, none⟩ = true →
            FilterEngine.apply ⟨⟨some "APP2", none, none, none, none, none⟩⟩ F1
              = List.range (messageCount F1))) :=
  ⟨by decide, filter_result_is_sorted_subset F1 ⟨some "APP2", none, none, none, none, none⟩ (by decide)⟩

/-- Soundness invariant of one secondary-index map after processing positions
`0..n`: membership characterizes exactly the processed positions exposing the
projected field with the given value, and every per-key list is strictly
ascending. -/
def goodField {α : Type} (get : Nat → Option DltMessage) (proj : DltMessage → Option α)
    (n : Nat) (f : α → List Nat) : Prop :=
  (∀ v i, i ∈ f v ↔ (i < n ∧ ∃ m, get i = some m ∧ proj m = some v))
  ∧ ∀ v, (f v).Pairwise (· < ·)

lemma mem_updIndex {α : Type} [DecidableEq α] {f : α → List Nat} {k : α} {j : Nat}
    {v : α} {i : Nat} : i ∈ updIndex f k j v ↔ i ∈ f v ∨ (v = k ∧ i = j) := by
  unfold updIndex
  by_cases h : v = k
  · subst h; simp
  · simp [h]

lemma mem_updOpt {α : Type} [DecidableEq α] {f : α → List Nat} {o : Option α} {j : Nat}
    {v : α} {i : Nat} : i ∈ updOpt f o j v ↔ i ∈ f v ∨ (o = some v ∧ i = j) := by
  cases o with
  | none => simp [updOpt]
  | some k =>
    simp only [updOpt]
    rw [mem_updIndex]
    constructor
    · rintro (h | ⟨rfl, rfl⟩)
      · exact Or.inl h
      · exact Or.inr ⟨rfl, rfl⟩
    · rintro (h | ⟨hk, rfl⟩)
      · exact Or.inl h
      · exact Or.inr ⟨(Option.some.inj hk).symm, rfl⟩

lemma goodField_empty {α : Type} (get : Nat → Option DltMessage)
    (proj : DltMessage → Option α) : goodField get proj 0 (fun _ => []) := by
  constructor
  · intro v i; simp
  · intro v; simp

lemma goodField_step {α : Type} [DecidableEq α] {get : Nat → Option DltMessage}
    {proj : DltMessage → Option α} {n : Nat} {f : α → List Nat} {m : DltMessage}
    (hf : goodField get proj n f) (hm : get n = some m) :
    goodField get proj (n + 1) (updOpt f (proj m) n) := by
  obtain ⟨hmem, hsort⟩ := hf
  constructor
  · intro v i
    rw [mem_updOpt]
    constructor
    · rintro (hin | ⟨hpv, rfl⟩)
      · obtain ⟨hlt, mm, hget, hproj⟩ := (hmem v i).mp hin
        exact ⟨by omega, mm, hget, hproj⟩
      · exact ⟨by omega, m, hm, hpv⟩
    · rintro ⟨hlt, mm, hget, hproj⟩
      by_cases hik : i < n
      · exact Or.inl ((hmem v i).mpr ⟨hik, mm, hget, hproj⟩)
      · have hieq : i = n := by omega
        subst hieq
        rw [hm] at hget
        obtain rfl : m = mm := Option.some.inj hget
        exact Or.inr ⟨hproj, rfl⟩
  · intro v
    cases ho : proj m with
    | none => simpa only [updOpt, ho] using hsort v
    | some k =>
      simp only [updOpt, ho, updIndex]
      by_cases hv : v = k
      · subst hv
        rw [if_pos rfl, List.pairwise_append]
        refine ⟨hsort v, List.pairwise_singleton _ _, ?_⟩
        intro x hx y hy
        have hxlt := ((hmem v x).mp hx).1
        simp only [List.mem_singleton] at hy
        omega
      · rw [if_neg hv]
        exact hsort v

lemma buildAux_goodFields (get : Nat → Option DltMessage) :
    ∀ n, (∀ i, i < n → (get i).isSome = true) →
      ∃ ix, IndexM.buildAux get n = some ix
        ∧ goodField get (fun m => m.app_id) n ix.app_id_index
        ∧ goodField get (fun m => m.context_id) n ix.context_id_index
        ∧ goodField get (fun m => m.log_level) n ix.log_level_index
        ∧ goodField get (fun m => some m.ecu_id) n ix.ecu_id_index := by
  intro n
  induction n with
  | zero =>
    intro _
    exact ⟨IndexM.empty, rfl, goodField_empty get _, goodField_empty get _,
      goodField_empty get _, goodField_empty get _⟩
  | succ k ih =>
    intro h
    obtain ⟨ix, hix, ha, hc, hl, he⟩ := ih (fun i hik => h i (by omega))
    obtain ⟨m, hm⟩ := Option.isSome_iff_exists.mp (h k (by omega))
    have heq : IndexM.buildAux get (k + 1)
        = some { ecu_id_index := updIndex ix.ecu_id_index m.ecu_id k
               , app_id_index := updOpt ix.app_id_index m.app_id k
               , context_id_index := updOpt ix.context_id_index m.context_id k
               , log_level_index := updOpt ix.log_level_index m.log_level k } := by
      simp only [IndexM.buildAux, hix, hm]
    exact ⟨_, heq, goodField_step ha hm, goodField_step hc hm,
      goodField_step hl hm, goodField_step he hm⟩

/-- The soundness statement of claim C6 for a file: the secondary index
builds successfully; the union over all keys of each per-key position list
covers exactly the positions whose message exposes that field (every message
for the ecu index, messages with an extended header for the app-id,
context-id and log-level indices); and every per-key list is strictly
ascending. -/
def SecondaryIndexSound (data : List Byte) : Prop :=
  ∃ ix, IndexM.build data = some ix
    ∧ (∀ i, (∃ v, i ∈ ix.app_id_index v)
        ↔ (i < messageCount data
            ∧ ((getMessage data i).map (fun m => m.app_id.isSome)).getD false = true))
    ∧ (∀ v, (ix.app_id_index v).Pairwise (· < ·))
    ∧ (∀ i, (∃ v, i ∈ ix.context_id_index v)
        ↔ (i < messageCount data
            ∧ ((getMessage data i).map (fun m => m.context_id.isSome)).getD false = true))
    ∧ (∀ v, (ix.context_id_index v).Pairwise (· < ·))
    ∧ (∀ i, (∃ v, i ∈ ix.log_level_index v)
        ↔ (i < messageCount data
            ∧ ((getMessage data i).map (fun m => m.log_level.isSome)).getD false = true))
    ∧ (∀ v, (ix.log_level_index v).Pairwise (· < ·))
    ∧ (∀ i, (∃ v, i ∈ ix.ecu_id_index v) ↔ i < messageCount data)
    ∧ (∀ v, (ix.ecu_id_index v).Pairwise (· < ·))

/-- C6 (confirmed): on a file whose indexed messages all parse, the secondary
indices satisfy the union property and per-key sortedness, for all four
field kinds. -/
theorem secondary_index_union_sorted (data : List Byte)
    (hp : ∀ i, i < messageCount data → (getMessage data i).isSome = true) :
    SecondaryIndexSound data := by
  obtain ⟨ix, hix, ha, hc, hl, he⟩ :=
    buildAux_goodFields (getMessage data) (messageCount data) hp
  have union : ∀ {α : Type} (proj : DltMessage → Option α) (f : α → List Nat),
      goodField (getMessage data) proj (messageCount data) f →
      ∀ i, (∃ v, i ∈ f v)
        ↔ (i < messageCount data
            ∧ ((getMessage data i).map (fun m => (proj m).isSome)).getD false = true) := by
    intro α proj f hf i
    constructor
    · rintro ⟨v, hv⟩
      obtain ⟨hlt, m, hm, hproj⟩ := (hf.1 v i).mp hv
      refine ⟨hlt, ?_⟩
      rw [hm]
      simp [hproj]
    · rintro ⟨hlt, hsome⟩
      obtain ⟨m, hm⟩ := Option.isSome_iff_exists.mp (hp i hlt)
      rw [hm] at hsome
      simp only [Option.map_some', Option.getD_some] at hsome
      obtain ⟨v, hv⟩ := Option.isSome_iff_exists.mp hsome
      exact ⟨v, (hf.1 v i).mpr ⟨hlt, m, hm, hv⟩⟩
  refine ⟨ix, hix, union _ _ ha, ha.2, union _ _ hc, hc.2, union _ _ hl, hl.2, ?_, he.2⟩
  intro i
  constructor
  · rintro ⟨v, hv⟩
    exact ((he.1 v i).mp hv).1
  · intro hlt
    obtain ⟨m, hm⟩ := Option.isSome_iff_exists.mp (hp i hlt)
    exact ⟨m.ecu_id, (he.1 m.ecu_id i).mpr ⟨hlt, m, hm, rfl⟩⟩

/-- Witness for C6 on `F1`. -/
theorem secondary_index_union_sorted_witness :
    (∀ i, i < messageCount F1 → (getMessage F1 i).isSome = true)
      ∧ SecondaryIndexSound F1 :=
  ⟨by decide, secondary_index_union_sorted F1 (by decide)⟩

/-! Session lemmas: wrap-around search-cursor moves. -/

lemma next_search_result_results (a : AppM) :
    (AppM.next_search_result a).search_results = a.search_results := by
  unfold AppM.next_search_result
  split <;> rfl

lemma prev_search_result_results (a : AppM) :
    (AppM.prev_search_result a).search_results = a.search_results := by
  unfold AppM.prev_search_result
  split <;> rfl

lemma next_search_result_cursor (a : AppM) (h : a.search_results ≠ []) :
    (AppM.next_search_result a).current_search_idx
      = (a.current_search_idx + 1) % a.search_results.length := by
  unfold AppM.next_search_result
  rw [if_neg (by simpa using h)]

lemma prev_search_result_cursor (a : AppM) (h : a.search_results ≠ []) :
    (AppM.prev_search_result a).current_search_idx
      = (if a.current_search_idx = 0 then a.search_results.length - 1
         else a.current_search_idx - 1) := by
  unfold AppM.prev_search_result
  rw [if_neg (by simpa using h)]

lemma next_search_result_selected (a : AppM) (h : a.search_results ≠ []) :
    (AppM.next_search_result a).selected_message_idx
      = a.search_results.getD ((a.current_search_idx + 1) % a.search_results.length) 0 := by
  unfold AppM.next_search_result
  rw [if_neg (by simpa using h)]

lemma prev_search_result_selected (a : AppM) (h : a.search_results ≠ []) :
    (AppM.prev_search_result a).selected_message_idx
      = a.search_results.getD
          (if a.current_search_idx = 0 then a.search_results.length - 1
           else a.current_search_idx - 1) 0 := by
  unfold AppM.prev_search_result
  rw [if_neg (by simpa using h)]

lemma next_search_result_iterate (a : AppM) (h : a.search_results ≠ [])
    (hcur : a.current_search_idx < a.search_results.length) :
    ∀ n, (AppM.next_search_result^[n] a).search_results = a.search_results
      ∧ (AppM.next_search_result^[n] a).current_search_idx
          = (a.current_search_idx + n) % a.search_results.length := by
  intro n
  induction n with
  | zero =>
    exact ⟨rfl, by simp [Nat.mod_eq_of_lt hcur]⟩
  | succ k ih =>
    obtain ⟨hres, hcur'⟩ := ih
    have hne : (AppM.next_search_result^[k] a).search_results ≠ [] := by
      rw [hres]; exact h
    rw [Function.iterate_succ_apply']
    refine ⟨by rw [next_search_result_results, hres], ?_⟩
    rw [next_search_result_cursor _ hne, hcur', hres, Nat.mod_add_mod, Nat.add_assoc]

/-- C7 (confirmed): for a session state with non-empty search hits and its
cursor inside the hit list (the invariant every reachable session state
satisfies), applying `next_match` `|hits|` times restores the cursor,
`prev_match` after `next_match` and `next_match` after `prev_match` restore
the cursor, and each move sets the selection cursor to the hit at the new
search cursor (a filter-result index). -/
theorem search_cursor_wraps (a : AppM) (h : a.search_results ≠ [])
    (hcur : a.current_search_idx < a.search_results.length) :
    (AppM.next_search_result^[a.search_results.length] a).current_search_idx
        = a.current_search_idx
      ∧ (AppM.prev_search_result (AppM.next_search_result a)).current_search_idx
          = a.current_search_idx
      ∧ (AppM.next_search_result (AppM.prev_search_result a)).current_search_idx
          = a.current_search_idx
      ∧ (AppM.next_search_result a).selected_message_idx
          = (AppM.next_search_result a).search_results.getD
              ((AppM.next_search_result a).current_search_idx) 0
      ∧ (AppM.prev_search_result a).selected_message_idx
          = (AppM.prev_search_result a).search_results.getD
              ((AppM.prev_search_result a).current_search_idx) 0 := by
  have hnext_ne : (AppM.next_search_result a).search_results ≠ [] := by
    rw [next_search_result_results]; exact h
  have hprev_ne : (AppM.prev_search_result a).search_results ≠ [] := by
    rw [prev_search_result_results]; exact h
  refine ⟨?_, ?_, ?_, ?_, ?_⟩
  · rw [(next_search_result_iterate a h hcur a.search_results.length).2,
      Nat.add_mod_right, Nat.mod_eq_of_lt hcur]
  · rw [prev_search_result_cursor _ hnext_ne, next_search_result_results,
      next_search_result_cursor a h]
    rcases Nat.lt_or_ge (a.current_search_idx + 1) a.search_results.length with hlt | hge
    · rw [Nat.mod_eq_of_lt hlt, if_neg (by omega)]
      omega
    · have heq : a.current_search_idx + 1 = a.search_results.length := by omega
      rw [heq, Nat.mod_self, if_pos rfl]
      omega
  · rw [next_search_result_cursor _ hprev_ne, prev_search_result_results,
      prev_search_result_cursor a h]
    by_cases h0 : a.current_search_idx = 0
    · rw [if_pos h0]
      have hL : a.search_results.length - 1 + 1 = a.search_results.length := by
        have := List.length_pos.mpr h
        omega
      rw [hL, Nat.mod_self, h0]
    · rw [if_neg h0]
      have hc : a.current_search_idx - 1 + 1 = a.current_search_idx := by omega
      rw [hc, Nat.mod_eq_of_lt hcur]
  · rw [next_search_result_selected a h, next_search_result_results,
      next_search_result_cursor a h]
  · rw [prev_search_result_selected a h, prev_search_result_results,
      prev_search_result_cursor a h]

/-- A session state with two search hits, used as the C7 witness. -/
def app7 : AppM := { AppM.new with search_results := [0, 2] }

/-- Witness for C7 at `app7`. -/
theorem search_cursor_wraps_witness :
    (app7.search_results ≠ [] ∧ app7.current_search_idx < app7.search_results.length)
      ∧ ((AppM.next_search_result^[app7.search_results.length] app7).current_search_idx
            = app7.current_search_idx
          ∧ (AppM.prev_search_result (AppM.next_search_result app7)).current_search_idx
              = app7.current_search_idx
          ∧ (AppM.next_search_result (AppM.prev_search_result app7)).current_search_idx
              = app7.current_search_idx
          ∧ (AppM.next_search_result app7).selected_message_idx
              = (AppM.next_search_result app7).search_results.getD
                  ((AppM.next_search_result app7).current_search_idx) 0
          ∧ (AppM.prev_search_result app7).selected_message_idx
              = (AppM.prev_search_result app7).search_results.getD
                  ((AppM.prev_search_result app7).current_search_idx) 0) :=
  ⟨⟨by decide, by decide⟩, search_cursor_wraps app7 (by decide) (by decide)⟩

/-- C8 (confirmed): when regex compilation of the effective pattern fails,
the session search operation returns the error and the stored search results,
search cursor, selection cursor, stored pattern and filter result are all
unchanged (the engine's case flag is the only field the failing path may
touch). -/
theorem search_compile_failure_preserves_state (a : AppM) (pattern : String)
    (compileRegex : String → Option (String → Bool))
    (hfail : compileRegex (effectivePattern a.case_sensitive_search pattern) = none) :
    (AppM.search compileRegex a pattern).2 = false
      ∧ (AppM.search compileRegex a pattern).1.search_results = a.search_results
      ∧ (AppM.search compileRegex a pattern).1.current_search_idx = a.current_search_idx
      ∧ (AppM.search compileRegex a pattern).1.selected_message_idx
          = a.selected_message_idx
      ∧ (AppM.search compileRegex a pattern).1.search_pattern = a.search_pattern
      ∧ (AppM.search compileRegex a pattern).1.filtered_messages
          = a.filtered_messages := by
  cases he : a.search_engine <;> simp [AppM.search, he, hfail]

/-- A regex compiler that rejects every pattern, standing in for an invalid
pattern such as an unbalanced parenthesis. -/
def compileNone : String → Option (String → Bool) := fun _ => none

/-- Witness for C8: searching with a failing compiler on the fresh session. -/
theorem search_compile_failure_preserves_state_witness :
    compileNone (effectivePattern AppM.new.case_sensitive_search "(") = none
      ∧ ((AppM.search compileNone AppM.new "(").2 = false
          ∧ (AppM.search compileNone AppM.new "(").1.search_results
              = AppM.new.search_results
          ∧ (AppM.search compileNone AppM.new "(").1.current_search_idx
              = AppM.new.current_search_idx
          ∧ (AppM.search compileNone AppM.new "(").1.selected_message_idx
              = AppM.new.selected_message_idx
          ∧ (AppM.search compileNone AppM.new "(").1.search_pattern
              = AppM.new.search_pattern
          ∧ (AppM.search compileNone AppM.new "(").1.filtered_messages
              = AppM.new.filtered_messages) :=
  ⟨rfl, search_compile_failure_preserves_state AppM.new "(" compileNone rfl⟩

/-- A single parse failure below the message count makes the secondary-index
build fail. -/
lemma buildAux_none_of_failure (get : Nat → Option DltMessage) :
    ∀ n i, i < n → get i = none → IndexM.buildAux get n = none := by
  intro n
  induction n with
  | zero => intro i hi; omega
  | succ k ih =>
    intro i hi hnone
    by_cases hik : i < k
    · simp [IndexM.buildAux, ih i hik hnone]
    · have hik2 : i = k := by omega
      subst hik2
      cases hb : IndexM.buildAux get i <;> simp [IndexM.buildAux, hb, hnone]

/-- C10 (confirmed): the secondary-index build propagates the first
per-message parse failure instead of skipping it, so loading a file whose
offset index contains an unparseable message fails entirely: the session is
returned unchanged with the error flag. -/
theorem load_file_fails_on_unparseable_message (a : AppM) (bytes : List Byte)
    (hi : ∃ i, i < messageCount bytes ∧ getMessage bytes i = none) :
    AppM.load_file a bytes = (a, false) := by
  obtain ⟨i, hlt, hnone⟩ := hi
  have hne : bytes ≠ [] := by
    intro hb
    subst hb
    have : messageCount ([] : List Byte) = 0 := rfl
    omega
  have hbuild : IndexM.build bytes = none :=
    buildAux_none_of_failure (getMessage bytes) (messageCount bytes) i hlt hnone
  unfold AppM.load_file
  rw [if_neg (by simpa using hne), hbuild]

/-- Witness for C10: loading the 16-byte `shortFile`, whose only indexed
offset cannot be parsed, fails and leaves the fresh session unchanged. -/
theorem load_file_fails_on_unparseable_message_witness :
    (0 < messageCount shortFile ∧ getMessage shortFile 0 = none)
      ∧ AppM.load_file AppM.new shortFile = (AppM.new, false) :=
  ⟨⟨by decide, by decide⟩,
    load_file_fails_on_unparseable_message AppM.new shortFile ⟨0, by decide, by decide⟩⟩

end Dltui
